import Mathlib

set_option autoImplicit false

/-!
Verification development for the indexing-and-retrieval pipeline of `app.py`
(a containerized llamafile RAG example).

Texts are modelled as `List Char` (Python `str`), chunks as `List Char`,
embedding vectors as `List Int` (the concrete float payload is irrelevant to
every verified property; inner-product scores stay exact).  External
collaborators enter as function parameters:

* the llamafile embedding service (`em : List Char → List Int`),
* `faiss.normalize_L2` (`nl2 : List Int → List Int`),
* `checksumdir.dirhash` (`hf : List Char → List Char`),
* HTTP fetches (`List (Except String (List Char))`, one outcome per
  configured URL),
* local files (a `LocalDir` record holding the texts of the `.txt` and `.pdf`
  files of one configured directory, in `rglob` order).

The chunker is the langchain `RecursiveCharacterTextSplitter` exactly as
`chunk_text` instantiates it: default separators `"\n\n"`, `"\n"`, `" "`,
`""`, `keep_separator=True` (so merges join with the empty separator and the
separator is attached to the front of the following split),
`strip_whitespace=True`, `length_function=len`, `chunk_overlap=40`, and the
constructor's `ValueError` when the overlap exceeds the chunk size.
-/

namespace RagApp

/-! ### Python string primitives -/

/-- Characters stripped by Python `str.strip()` (the ASCII whitespace set,
which is all the app's texts can contain that matters here). -/
def isPySpace (c : Char) : Bool :=
  c = ' ' || c = '\t' || c = '\n' || c = '\r' || c = '\x0b' || c = '\x0c'

/-- Python `str.strip()`: drop leading and trailing whitespace. -/
def pstrip (t : List Char) : List Char :=
  ((t.dropWhile isPySpace).reverse.dropWhile isPySpace).reverse

/-- Concatenation of a list of strings (`"".join(...)`). -/
def catl : List (List Char) → List Char
  | [] => []
  | x :: xs => x ++ catl xs

/-- Total length of a list of strings. -/
def sumLen : List (List Char) → Nat
  | [] => 0
  | x :: xs => x.length + sumLen xs

/-- First occurrence of `sep` in `text`: `some (pre, post)` with
`text = pre ++ sep ++ post`, scanning left to right (Python `re.search` /
`str.find` on a literal pattern).  `none` when `sep` does not occur. -/
def breakOnSep (sep : List Char) : List Char → Option (List Char × List Char)
  | [] => none
  | c :: rest =>
    if sep.isPrefixOf (c :: rest) then some ([], (c :: rest).drop sep.length)
    else
      match breakOnSep sep rest with
      | some (pre, post) => some (c :: pre, post)
      | none => none

/-- Python `re.search(re.escape(sep), text) is not None` for a nonempty
literal separator. -/
def occursIn (sep text : List Char) : Bool :=
  (breakOnSep sep text).isSome

/-- Fueled splitting on a literal separator, keeping the separator attached
to the front of the following piece: this is langchain's
`_split_text_with_regex(text, sep, keep_separator=True)` before its final
empty-string filter.  The fuel only bounds the recursion; `text.length` is
always enough fuel because each step removes at least one character. -/
def splitKeepSepF (sep : List Char) : Nat → List Char → List (List Char)
  | 0, text => [text]
  | fuel + 1, text =>
    match breakOnSep sep text with
    | none => [text]
    | some (pre, post) =>
      match splitKeepSepF sep fuel post with
      | [] => [pre]
      | q :: qs => pre :: (sep ++ q) :: qs

/-- `_split_text_with_regex` with `keep_separator=True` (before the
empty-piece filter applied at its end by the caller). -/
def splitKeepSep (sep text : List Char) : List (List Char) :=
  splitKeepSepF sep text.length text

/-! ### langchain merge step (`TextSplitter._merge_splits`, separator `""`) -/

/-- `TextSplitter._join_docs(docs, "")` with `strip_whitespace=True`:
concatenate, strip, drop if empty. -/
def joinStrip (cur : List (List Char)) : Option (List Char) :=
  let t := pstrip (catl cur)
  if t = [] then none else some t

/-- Coerce the optional joined document to a zero- or one-element list. -/
def optToList : Option (List Char) → List (List Char)
  | none => []
  | some d => [d]

/-- The overlap-keeping `while` loop of `_merge_splits`: pop splits from the
front of `current_doc` (second component: running total, kept equal to the
summed length) while
`total > chunk_overlap or (total + len_d > chunk_size and total > 0)`. -/
def shrinkDoc (cs ov lend : Nat) : List (List Char) → Nat → List (List Char) × Nat
  | [], t => ([], t)
  | d :: rest, t =>
    if t > ov ∨ (t + lend > cs ∧ t > 0) then shrinkDoc cs ov lend rest (t - d.length)
    else (d :: rest, t)

/-- One iteration of the `for d in splits` loop of `_merge_splits` over the
state `(docs, current_doc, total)` (separator `""`, so the separator length
terms vanish).  When adding `d` would overflow `chunk_size`, flush
`current_doc` (stripped, dropped if empty) and pop the front until the
overlap condition is restored, then append `d` in both cases. -/
def mergeStep (cs ov : Nat) (st : List (List Char) × List (List Char) × Nat)
    (d : List Char) : List (List Char) × List (List Char) × Nat :=
  let (docs, cur, total) := st
  let lend := d.length
  if total + lend > cs then
    let docs' := docs ++ optToList (joinStrip cur)
    let (cur', total') := shrinkDoc cs ov lend cur total
    (docs', cur' ++ [d], total' + lend)
  else
    (docs, cur ++ [d], total + lend)

/-- The `for` loop of `_merge_splits`. -/
def mergeRun (cs ov : Nat) : List (List Char) →
    List (List Char) × List (List Char) × Nat →
    List (List Char) × List (List Char) × Nat
  | [], st => st
  | d :: rest, st => mergeRun cs ov rest (mergeStep cs ov st d)

/-- `TextSplitter._merge_splits(splits, "")`: run the loop from the empty
state and flush the final `current_doc`. -/
def mergeSplits (cs ov : Nat) (splits : List (List Char)) : List (List Char) :=
  let (docs, cur, _) := mergeRun cs ov splits ([], [], 0)
  docs ++ optToList (joinStrip cur)

/-! ### `RecursiveCharacterTextSplitter._split_text` -/

/-- The `for s in splits` loop of `_split_text` over the state
`(final_chunks, _good_splits)`: splits shorter than `chunk_size` accumulate
in `_good_splits`; a long split first flushes the merged good splits, then is
recursed into (`recurse = some f`, remaining separators available) or
appended as-is (`recurse = none`). -/
def processRun (cs ov : Nat) (recurse : Option (List Char → List (List Char))) :
    List (List Char) → List (List Char) × List (List Char) →
    List (List Char) × List (List Char)
  | [], st => st
  | s :: rest, st =>
    let (acc, good) := st
    if s.length < cs then processRun cs ov recurse rest (acc, good ++ [s])
    else
      let acc1 := if good = [] then acc else acc ++ mergeSplits cs ov good
      let acc2 := acc1 ++ (match recurse with | none => [s] | some f => f s)
      processRun cs ov recurse rest (acc2, [])

/-- Body of `_split_text` after the separator has been chosen and the splits
computed: run the loop, then flush the trailing `_good_splits`. -/
def processSplits (cs ov : Nat) (recurse : Option (List Char → List (List Char)))
    (splits : List (List Char)) : List (List Char) :=
  let (acc, good) := processRun cs ov recurse splits ([], [])
  if good = [] then acc else acc ++ mergeSplits cs ov good

/-- `_split_text` once the separator search has reached `""` (the last
default separator): split into single characters; a character can only be
"too long" when `chunk_size ≤ 1`, in which case it is appended as-is because
no separators remain. -/
def splitSep3 (cs ov : Nat) (text : List Char) : List (List Char) :=
  processSplits cs ov none ((text.map (fun c => [c])).filter (fun s => s ≠ []))

/-- `_split_text` at separator `" "`: chosen iff `" "` occurs in the text,
otherwise the separator search falls through to `""`. -/
def splitSep2 (cs ov : Nat) (text : List Char) : List (List Char) :=
  if occursIn [' '] text then
    processSplits cs ov (some (splitSep3 cs ov))
      ((splitKeepSep [' '] text).filter (fun s => s ≠ []))
  else splitSep3 cs ov text

/-- `_split_text` at separator `"\n"`. -/
def splitSep1 (cs ov : Nat) (text : List Char) : List (List Char) :=
  if occursIn ['\n'] text then
    processSplits cs ov (some (splitSep2 cs ov))
      ((splitKeepSep ['\n'] text).filter (fun s => s ≠ []))
  else splitSep2 cs ov text

/-- `_split_text` at the first default separator `"\n\n"`; this is
`split_text` itself. -/
def splitSep0 (cs ov : Nat) (text : List Char) : List (List Char) :=
  if occursIn ['\n', '\n'] text then
    processSplits cs ov (some (splitSep1 cs ov))
      ((splitKeepSep ['\n', '\n'] text).filter (fun s => s ≠ []))
  else splitSep1 cs ov text

/-! ### `chunk_text` (`app.py` lines 33-49) -/

/-- The effective chunk length of `chunk_text`:
`min(INDEX_TEXT_CHUNK_LEN, EMBEDDING_MODEL_MAX_LEN)` when the configured
chunk length is positive, else `EMBEDDING_MODEL_MAX_LEN`. -/
def effChunkLen (cl : Int) (ml : Nat) : Nat :=
  if 0 < cl then min cl.toNat ml else ml

/-- `chunk_text(text)` with the configuration made explicit.  Constructing
`RecursiveCharacterTextSplitter(chunk_size=chunk_len, chunk_overlap=40, ...)`
raises `ValueError` when the overlap exceeds the chunk size, which the app
does not catch at this level. -/
def chunk_text (cl : Int) (ml : Nat) (text : List Char) :
    Except String (List (List Char)) :=
  if 40 > effChunkLen cl ml then
    .error "ValueError: larger chunk overlap than chunk size"
  else
    .ok (splitSep0 (effChunkLen cl ml) 40 text)

/-! ### faiss `IndexFlatIP` (flat inner-product index) -/

/-- Inner product of two vectors (exact, over `Int`). -/
def ip (u v : List Int) : Int :=
  (List.zipWith (· * ·) u v).sum

/-- A faiss flat inner-product index: the dimension fixed at construction
and the stored vectors in insertion order. -/
structure IndexFlatIP where
  d : Nat
  vectors : List (List Int)
  deriving DecidableEq, Repr

/-- `faiss.IndexFlatIP(d)`. -/
def IndexFlatIP.empty (d : Nat) : IndexFlatIP := ⟨d, []⟩

/-- `index.ntotal`. -/
def IndexFlatIP.ntotal (idx : IndexFlatIP) : Nat := idx.vectors.length

/-- `index.add(v)` for one row: faiss asserts that the row width equals the
index dimension and otherwise appends at the end. -/
def IndexFlatIP.add (idx : IndexFlatIP) (v : List Int) : Except String IndexFlatIP :=
  if v.length = idx.d then .ok ⟨idx.d, idx.vectors ++ [v]⟩
  else .error "AssertionError: d == self.d"

/-- Insert one scored entry into a list sorted by decreasing score, ties
broken by lower insertion index. -/
def insertScored (x : Int × Nat) : List (Int × Nat) → List (Int × Nat)
  | [] => [x]
  | y :: ys =>
    if y.1 < x.1 ∨ (x.1 = y.1 ∧ x.2 ≤ y.2) then x :: y :: ys
    else y :: insertScored x ys

/-- Sort scored entries by decreasing score (stable in insertion index). -/
def sortScored : List (Int × Nat) → List (Int × Nat)
  | [] => []
  | x :: xs => insertScored x (sortScored xs)

/-- Score used by faiss to pad the distance array when fewer than `k`
entries exist (the most negative float32; its exact value is irrelevant,
only the label padding `-1` is ever consumed by the app). -/
def padScore : Int := -340282346638528859811704183484516925440

/-- `index.search(q, k)` (single query row): the `min k ntotal` stored
entries with the highest inner product, scores in non-increasing order, and
the label array padded to length `k` with `-1`. -/
def IndexFlatIP.search (idx : IndexFlatIP) (q : List Int) (k : Nat) :
    List Int × List Int :=
  let scored := (idx.vectors.enum).map (fun p => (ip q p.2, p.1))
  let top := (sortScored scored).take k
  (top.map (·.1) ++ List.replicate (k - top.length) padScore,
   top.map (fun p => (p.2 : Int)) ++ List.replicate (k - top.length) (-1))

/-! ### `embed` (`app.py` lines 77-82) -/

/-- The probe text `"Apples are red."` used at build start to establish the
embedding dimension (`app.py` line 100). -/
def probeText : List Char := "Apples are red.".toList

/-- `embed(text)`: call the llamafile service (`em`) and L2-normalize the
result (`faiss.normalize_L2`, here the abstract dimension-preserving map
`nl2`).  Note there is no dimension check anywhere on this path. -/
def embed (nl2 : List Int → List Int) (em : List Char → List Int)
    (text : List Char) : List Int :=
  nl2 (em text)

/-- The dimension established at build start:
`llamafile.embed("Apples are red.").shape[-1]`. -/
def dimEstablished (em : List Char → List Int) : Nat :=
  (em probeText).length

/-! ### `load_data_for_indexing` (`app.py` lines 52-74) -/

/-- The texts of one configured local directory: `path` is the configured
path string; `txtFiles` and `pdfFiles` hold the text of each `*.txt`
(resp. the extracted text of each `*.pdf`) in `rglob` order. -/
structure LocalDir where
  path : List Char
  txtFiles : List (List Char)
  pdfFiles : List (List Char)
  deriving DecidableEq, Repr

/-- The URL half of `load_data_for_indexing`: for each configured URL the
fetch outcome is given (`.error` for a network failure, a non-2xx status
surfaced by `raise_for_status`, or any parse failure; `.ok text` for the
extracted visible text).  The `try/except Exception` around the whole body
turns every failure — including a `ValueError` from the chunker — into a
logged skip, so this half never raises. -/
def urlChunks (cl : Int) (ml : Nat) :
    List (Except String (List Char)) → List (List Char)
  | [] => []
  | r :: rest =>
    (match (do chunk_text cl ml (← r)) with
      | .ok cs => cs
      | .error _ => []) ++ urlChunks cl ml rest

/-- Chunks of a list of file texts; errors (only the chunker constructor's
`ValueError` in this model) propagate, as local-file processing is outside
any `try`. -/
def fileChunks (cl : Int) (ml : Nat) :
    List (List Char) → Except String (List (List Char))
  | [] => .ok []
  | t :: rest => do
    let cs ← chunk_text cl ml t
    let rest' ← fileChunks cl ml rest
    .ok (cs ++ rest')

/-- Chunks of one directory: all `*.txt` chunks, then all `*.pdf` chunks
(`app.py` lines 65-74 run the two `rglob` loops in that order). -/
def dirChunks (cl : Int) (ml : Nat) (d : LocalDir) :
    Except String (List (List Char)) := do
  let ts ← fileChunks cl ml d.txtFiles
  let ps ← fileChunks cl ml d.pdfFiles
  .ok (ts ++ ps)

/-- Chunks of all configured directories in configuration order. -/
def dirsChunks (cl : Int) (ml : Nat) :
    List LocalDir → Except String (List (List Char))
  | [] => .ok []
  | d :: rest => do
    let cs ← dirChunks cl ml d
    let rest' ← dirsChunks cl ml rest
    .ok (cs ++ rest')

/-- `load_data_for_indexing()`: URL chunks first (failures skipped), then
the local-directory chunks (failures propagate). -/
def load_data_for_indexing (cl : Int) (ml : Nat)
    (fetched : List (Except String (List Char))) (dirs : List LocalDir) :
    Except String (List (List Char)) := do
  let ds ← dirsChunks cl ml dirs
  .ok (urlChunks cl ml fetched ++ ds)

/-! ### staleness gate and marker (`app.py` lines 85-98 and 117-119) -/

/-- The marker written after a successful build (`last_hash.txt`): the
concatenation, with no delimiter, of `checksumdir.dirhash(d, 'sha256')` for
every configured directory, in configuration order. -/
def writeMarker (hf : List Char → List Char) (dirPaths : List (List Char)) :
    List Char :=
  catl (dirPaths.map hf)

/-- Outcome of the startup gate. -/
inductive BuildDecision where
  | skip
  | rebuild
  deriving DecidableEq, Repr

/-- The `for d in settings.INDEX_LOCAL_DATA_DIRS` loop over the open marker
file (`app.py` lines 90-96).  Both branches of the first iteration leave the
loop: `if d not in fin.read(): break` falls through to the rebuild, and the
`else` returns (skip).  So the decision tests only whether the FIRST
configured directory's path string occurs in the marker contents (the
repeated `fin.read()` consumption is unobservable), and an empty directory
list falls off the loop into the rebuild. -/
def gateLoop (contents : List Char) : List (List Char) → BuildDecision
  | [] => .rebuild
  | d :: _ => if ¬ occursIn d contents then .rebuild else .skip

/-- The build-vs-reuse decision of `build_index` (`app.py` lines 86-98):
rebuild when the save directory is missing or the marker file is missing,
otherwise run `gateLoop` on the marker contents. -/
def stalenessGate (dirPaths : List (List Char)) (savedirExists : Bool)
    (marker : Option (List Char)) : BuildDecision :=
  if savedirExists then
    match marker with
    | some contents => gateLoop contents dirPaths
    | none => .rebuild
  else .rebuild

/-! ### `build_index` (`app.py` lines 85-121) -/

/-- The persisted state the build reads and writes: whether
`settings.INDEX_SAVE_DIR` exists and the contents of `last_hash.txt`
(`none` when the file is missing). -/
structure FsState where
  savedirExists : Bool
  marker : Option (List Char)
  deriving DecidableEq, Repr

/-- What a successful `build_index` run produced. -/
inductive BuildOutcome where
  | skipped
  | built (idx : IndexFlatIP) (docs : List (List Char)) (marker : List Char)
  deriving DecidableEq, Repr

/-- The build loop (`app.py` lines 106-110): for each text, embed it, add
the vector to the index (faiss asserts the dimension) and append the text to
`docs`. -/
def buildVectors (nl2 : List Int → List Int) (em : List Char → List Int)
    (texts : List (List Char)) (st : IndexFlatIP × List (List Char)) :
    Except String (IndexFlatIP × List (List Char)) :=
  match texts with
  | [] => .ok st
  | t :: rest => do
    let idx' ← st.1.add (embed nl2 em t)
    buildVectors nl2 em rest (idx', st.2 ++ [t])

/-- `build_index()`.  After the gate decides to rebuild: establish the
dimension from the probe, ingest and embed every chunk, then
`savedir.mkdir(parents=True)` — which raises `FileExistsError` whenever the
save directory already exists, because `exist_ok` is not set — and finally
write `index.faiss`, `index.json` and the recomputed hash marker.  (The
model materialises the ingestion list before embedding; the code interleaves
them lazily.  Both fail on the same inputs, possibly with the other error
first, and succeed with identical results.) -/
def build_index (nl2 : List Int → List Int) (em : List Char → List Int)
    (hf : List Char → List Char) (cl : Int) (ml : Nat)
    (fetched : List (Except String (List Char))) (dirs : List LocalDir)
    (fs : FsState) : Except String BuildOutcome :=
  match stalenessGate (dirs.map (·.path)) fs.savedirExists fs.marker with
  | .skip => .ok .skipped
  | .rebuild => do
    let dim := dimEstablished em
    let texts ← load_data_for_indexing cl ml fetched dirs
    let (idx, docs) ← buildVectors nl2 em texts (IndexFlatIP.empty dim, [])
    if fs.savedirExists then .error "FileExistsError" else
    .ok (.built idx docs (writeMarker hf (dirs.map (·.path))))

/-! ### query path (`app.py` lines 137-189, 200-210) -/

/-- Python list indexing `docs[ix]`: a negative index counts from the end;
out of range raises `IndexError`. -/
def pythonGet (docs : List (List Char)) (ix : Int) : Except String (List Char) :=
  let e := if 0 ≤ ix then ix else (docs.length : Int) + ix
  if h : 0 ≤ e ∧ e.toNat < docs.length then .ok (docs.get ⟨e.toNat, h.2⟩)
  else .error "IndexError"

/-- What `pprint_search_results` prints. -/
inductive RenderOutcome where
  | results (rows : List (Int × List Char))
  | noResults
  deriving DecidableEq, Repr

/-- The rows printed by the loop of `pprint_search_results`: score and the
100-character preview `docs[doc_ix][:100]`, failing at the first bad index. -/
def pprintRows (docs : List (List Char)) :
    List (Int × Int) → Except String (List (Int × List Char))
  | [] => .ok []
  | (s, ix) :: rest => do
    let d ← pythonGet docs ix
    let ds ← pprintRows docs rest
    .ok ((s, d.take 100) :: ds)

/-- `pprint_search_results(scores, doc_indices, docs)`: the `try/except
IndexError` around the loop prints "No results found." on the first bad
index (rows printed before the failure are modelled as discarded, since the
outcome the spec distinguishes is the final message). -/
def pprint_search_results (scores ids : List Int) (docs : List (List Char)) :
    RenderOutcome :=
  match pprintRows docs (scores.zip ids) with
  | .ok rows => .results rows
  | .error _ => .noResults

/-- `[docs[ix] for ix in doc_indices[0]]`, failing at the first bad index. -/
def listCompGet (docs : List (List Char)) :
    List Int → Except String (List (List Char))
  | [] => .ok []
  | ix :: rest => do
    let d ← pythonGet docs ix
    let ds ← listCompGet docs rest
    .ok (d :: ds)

/-- The prompt template of `run_query` (lines 171-177): system instruction,
the newline-joined retrieved chunks, and the literal query. -/
def tmplPre : List Char :=
  ("You are an expert Q&A system. Answer the user's query using the provided context information.\n"
    ++ "Context information:\n").toList

/-- Second fixed part of the template, between context and query. -/
def tmplMid : List Char := "\nQuery: ".toList

/-- `"\n".join(search_results)`. -/
def joinNL : List (List Char) → List Char
  | [] => []
  | [x] => x
  | x :: y :: rest => x ++ '\n' :: joinNL (y :: rest)

/-- `prompt_template % ("\n".join(search_results), query)`. -/
def promptTemplate (ctx query : List Char) : List Char :=
  tmplPre ++ ctx ++ tmplMid ++ query

/-- Everything one query turn produces. -/
structure QueryTurn where
  rendered : RenderOutcome
  searchResults : List (List Char)
  prompt : List Char
  promptNtokens : Nat
  answer : List Char
  deriving DecidableEq, Repr

/-- The external events of one query turn: the query text read from the
prompt, and the outcomes of the three service calls the turn makes
(`llamafile.embed`, `llamafile.tokenize`, `llamafile.completion`). -/
structure TurnInput where
  query : List Char
  emQ : Except String (List Int)
  tok : List Char → Except String (List Nat)
  comp : List Char → Except String (List Char)

/-- `run_query(k, index, docs)` for one turn: embed the query, search,
render, build `search_results` (the `try/except IndexError` yields `[]` on
the first bad index), assemble the prompt, tokenize it and ask for a
completion.  Any service failure escapes as the turn's error. -/
def run_query (nl2 : List Int → List Int) (k : Nat) (idx : IndexFlatIP)
    (docs : List (List Char)) (i : TurnInput) : Except String QueryTurn := do
  let e ← i.emQ
  let emb := nl2 e
  let (scores, ids) := idx.search emb k
  let rendered := pprint_search_results scores ids docs
  let searchResults := match listCompGet docs ids with
    | .ok l => l
    | .error _ => []
  let prompt := promptTemplate (joinNL searchResults) i.query
  let ntoks ← i.tok prompt
  let answer ← i.comp prompt
  .ok ⟨rendered, searchResults, prompt, ntoks.length, answer⟩

/-- The `rag` command's `while True: run_query(...)` loop, driven by the
finite list of turns the user enters before end-of-input: a turn's error
propagates out of the bare loop (there is no handler around `run_query`), so
it ends the session with that error and no later turn runs; exhausting the
input ends the session cleanly. -/
def rag (nl2 : List Int → List Int) (k : Nat) (idx : IndexFlatIP)
    (docs : List (List Char)) : List TurnInput → List QueryTurn × Option String
  | [] => ([], none)
  | i :: rest =>
    match run_query nl2 k idx docs i with
    | .ok r =>
      let (rs, e) := rag nl2 k idx docs rest
      (r :: rs, e)
    | .error e => ([], some e)

/-! ## Lemmas about the string primitives -/

theorem catl_append (l₁ l₂ : List (List Char)) :
    catl (l₁ ++ l₂) = catl l₁ ++ catl l₂ := by
  induction l₁ with
  | nil => rfl
  | cons x xs ih => simp [catl, ih]

theorem sumLen_append (l₁ l₂ : List (List Char)) :
    sumLen (l₁ ++ l₂) = sumLen l₁ + sumLen l₂ := by
  induction l₁ with
  | nil => simp [sumLen]
  | cons x xs ih => simp [sumLen, ih]; omega

theorem sumLen_eq_length_catl (l : List (List Char)) :
    sumLen l = (catl l).length := by
  induction l with
  | nil => rfl
  | cons x xs ih => simp [sumLen, catl, ih]

theorem length_le_sumLen_of_mem {s : List Char} :
    ∀ {l : List (List Char)}, s ∈ l → s.length ≤ sumLen l := by
  intro l
  induction l with
  | nil => intro h; cases h
  | cons x xs ih =>
    intro h
    rcases List.mem_cons.mp h with rfl | h
    · simp only [sumLen]; omega
    · have := ih h
      simp only [sumLen]; omega

theorem length_dropWhile_le (p : Char → Bool) (l : List Char) :
    (l.dropWhile p).length ≤ l.length := by
  induction l with
  | nil => simp
  | cons c rest ih =>
    by_cases h : p c
    · simp [List.dropWhile, h]; omega
    · simp [List.dropWhile, h]

theorem pstrip_length_le (t : List Char) : (pstrip t).length ≤ t.length := by
  unfold pstrip
  calc ((t.dropWhile isPySpace).reverse.dropWhile isPySpace).reverse.length
      = ((t.dropWhile isPySpace).reverse.dropWhile isPySpace).length := by
        rw [List.length_reverse]
    _ ≤ (t.dropWhile isPySpace).reverse.length := length_dropWhile_le _ _
    _ = (t.dropWhile isPySpace).length := by rw [List.length_reverse]
    _ ≤ t.length := length_dropWhile_le _ _

theorem breakOnSep_eq {sep : List Char} :
    ∀ {text pre post : List Char},
      breakOnSep sep text = some (pre, post) → text = pre ++ sep ++ post := by
  intro text
  induction text with
  | nil => intro pre post h; simp [breakOnSep] at h
  | cons c rest ih =>
    intro pre post h
    by_cases hp : sep.isPrefixOf (c :: rest)
    · simp only [breakOnSep, hp, if_pos, Option.some.injEq, Prod.mk.injEq] at h
      obtain ⟨u, hu⟩ := List.isPrefixOf_iff_prefix.mp hp
      rw [← h.1, ← h.2, ← hu, List.drop_left]
      simp
    · simp only [breakOnSep, hp, Bool.false_eq_true, if_false] at h
      cases hb : breakOnSep sep rest with
      | none => rw [hb] at h; cases h
      | some pq =>
        obtain ⟨p, q⟩ := pq
        rw [hb] at h
        simp only [Option.some.injEq, Prod.mk.injEq] at h
        have := ih hb
        rw [← h.1, ← h.2]
        simp [this]

theorem splitKeepSepF_ne_nil (sep : List Char) (fuel : Nat) (text : List Char) :
    splitKeepSepF sep fuel text ≠ [] := by
  cases fuel with
  | zero => simp [splitKeepSepF]
  | succ n =>
    simp only [splitKeepSepF]
    cases hb : breakOnSep sep text with
    | none => simp
    | some pq =>
      obtain ⟨pre, post⟩ := pq
      cases hs : splitKeepSepF sep n post <;> simp [hs]

theorem catl_splitKeepSepF (sep : List Char) :
    ∀ (fuel : Nat) (text : List Char),
      catl (splitKeepSepF sep fuel text) = text := by
  intro fuel
  induction fuel with
  | zero => intro text; simp [splitKeepSepF, catl]
  | succ n ih =>
    intro text
    simp only [splitKeepSepF]
    cases hb : breakOnSep sep text with
    | none => simp [catl]
    | some pq =>
      obtain ⟨pre, post⟩ := pq
      have htext := breakOnSep_eq hb
      cases hs : splitKeepSepF sep n post with
      | nil => exact absurd hs (splitKeepSepF_ne_nil sep n post)
      | cons q qs =>
        have hcat : q ++ catl qs = post := by
          have hpost := ih post
          rw [hs] at hpost
          simpa [catl] using hpost
        simp only [hs]
        simp only [catl]
        rw [htext, ← hcat]
        simp [List.append_assoc]

theorem catl_splitKeepSep (sep text : List Char) :
    catl (splitKeepSep sep text) = text :=
  catl_splitKeepSepF sep text.length text

theorem catl_filter_ne_nil (l : List (List Char)) :
    catl (l.filter (fun s => s ≠ [])) = catl l := by
  induction l with
  | nil => rfl
  | cons x xs ih =>
    by_cases hx : x = []
    · subst hx
      rw [List.filter_cons_of_neg (by simp)]
      simpa [catl] using ih
    · rw [List.filter_cons_of_pos (by simp [hx])]
      simp only [catl]
      rw [ih]

theorem catl_map_singleton (text : List Char) :
    catl (text.map (fun c => [c])) = text := by
  induction text with
  | nil => rfl
  | cons c rest ih => simp [catl, ih]

/-! ## Lemmas about `_merge_splits` -/

/-- A well-formed chunk: nonempty and within the chunk-size bound. -/
def ChunkOK (cs : Nat) (c : List Char) : Prop := c ≠ [] ∧ c.length ≤ cs

/-- Invariant maintained by the merge loop: every flushed doc is a
well-formed chunk, the running total equals the summed length of
`current_doc`, and the total never exceeds `chunk_size`. -/
def MergeInv (cs : Nat) (st : List (List Char) × List (List Char) × Nat) : Prop :=
  (∀ c ∈ st.1, ChunkOK cs c) ∧ st.2.2 = sumLen st.2.1 ∧ st.2.2 ≤ cs

theorem mem_optToList_joinStrip {cur : List (List Char)} {c : List Char}
    (hc : c ∈ optToList (joinStrip cur)) :
    c = pstrip (catl cur) ∧ c ≠ [] := by
  unfold joinStrip optToList at hc
  by_cases hz : pstrip (catl cur) = [] <;> simp [hz] at hc
  exact ⟨hc, hc ▸ hz⟩

theorem joinStrip_ok {cs : Nat} {cur : List (List Char)}
    (h : sumLen cur ≤ cs) : ∀ c ∈ optToList (joinStrip cur), ChunkOK cs c := by
  intro c hc
  obtain ⟨hceq, hcne⟩ := mem_optToList_joinStrip hc
  refine ⟨hcne, ?_⟩
  rw [hceq]
  calc (pstrip (catl cur)).length ≤ (catl cur).length := pstrip_length_le _
    _ = sumLen cur := (sumLen_eq_length_catl cur).symm
    _ ≤ cs := h

theorem shrinkDoc_spec (cs ov lend : Nat) :
    ∀ (cur : List (List Char)) (t : Nat), t = sumLen cur →
      (shrinkDoc cs ov lend cur t).2 = sumLen (shrinkDoc cs ov lend cur t).1 ∧
      ¬ ((shrinkDoc cs ov lend cur t).2 > ov ∨
         ((shrinkDoc cs ov lend cur t).2 + lend > cs ∧
          (shrinkDoc cs ov lend cur t).2 > 0)) := by
  intro cur
  induction cur with
  | nil =>
    intro t ht
    simp only [shrinkDoc]
    constructor
    · exact ht
    · simp only [sumLen] at ht
      omega
  | cons d rest ih =>
    intro t ht
    by_cases hc : t > ov ∨ (t + lend > cs ∧ t > 0)
    · have hrest : t - d.length = sumLen rest := by
        simp only [sumLen] at ht
        omega
      simpa only [shrinkDoc, if_pos hc] using ih _ hrest
    · simp only [shrinkDoc, if_neg hc]
      exact ⟨ht, hc⟩

theorem mergeStep_inv {cs ov : Nat} {st : List (List Char) × List (List Char) × Nat}
    {d : List Char} (hd : d.length ≤ cs) (hst : MergeInv cs st) :
    MergeInv cs (mergeStep cs ov st d) := by
  obtain ⟨docs, cur, total⟩ := st
  obtain ⟨hdocs, htot, hbound⟩ := hst
  simp only at hdocs htot hbound
  by_cases ho : total + d.length > cs
  · obtain ⟨hsum2, hstop⟩ := shrinkDoc_spec cs ov d.length cur total htot
    simp only [mergeStep, if_pos ho, MergeInv]
    refine ⟨?_, ?_, ?_⟩
    · intro c hc
      rcases List.mem_append.mp hc with hc | hc
      · exact hdocs c hc
      · exact joinStrip_ok (htot ▸ hbound) c hc
    · simp only [sumLen_append, sumLen]
      omega
    · by_cases hover : (shrinkDoc cs ov d.length cur total).2 + d.length > cs
      · have hz : ¬ (shrinkDoc cs ov d.length cur total).2 > 0 :=
          fun hpos => hstop (Or.inr ⟨hover, hpos⟩)
        omega
      · omega
  · simp only [mergeStep, if_neg ho, MergeInv]
    refine ⟨hdocs, ?_, by omega⟩
    simp only [sumLen_append, sumLen]
    omega

theorem mergeRun_inv {cs ov : Nat} :
    ∀ (splits : List (List Char)) (st : List (List Char) × List (List Char) × Nat),
      (∀ s ∈ splits, s.length ≤ cs) → MergeInv cs st →
      MergeInv cs (mergeRun cs ov splits st) := by
  intro splits
  induction splits with
  | nil => intro st _ hst; exact hst
  | cons d rest ih =>
    intro st hall hst
    simp only [mergeRun]
    exact ih _ (fun s hs => hall s (List.mem_cons_of_mem d hs))
      (mergeStep_inv (hall d (List.mem_cons_self d rest)) hst)

theorem mergeSplits_ok {cs ov : Nat} {splits : List (List Char)}
    (hall : ∀ s ∈ splits, s.length ≤ cs) :
    ∀ c ∈ mergeSplits cs ov splits, ChunkOK cs c := by
  have hinv : MergeInv cs (mergeRun cs ov splits ([], [], 0)) :=
    mergeRun_inv splits ([], [], 0) hall
      ⟨by intro c hc; simp at hc, rfl, Nat.zero_le cs⟩
  intro c hc
  obtain ⟨hdocs, htot, hbound⟩ := hinv
  unfold mergeSplits at hc
  rcases List.mem_append.mp hc with hc | hc
  · exact hdocs c hc
  · exact joinStrip_ok (htot ▸ hbound) c hc

theorem mergeRun_small {cs ov : Nat} :
    ∀ (splits docs cur : List (List Char)) (total : Nat),
      total = sumLen cur → total + sumLen splits ≤ cs →
      mergeRun cs ov splits (docs, cur, total) =
        (docs, cur ++ splits, total + sumLen splits) := by
  intro splits
  induction splits with
  | nil =>
    intro docs cur total _ _
    simp [mergeRun, sumLen]
  | cons d rest ih =>
    intro docs cur total htot hsum
    have hno : ¬ (total + d.length > cs) := by
      simp only [sumLen] at hsum
      omega
    simp only [mergeRun, mergeStep, if_neg hno]
    rw [ih docs (cur ++ [d]) (total + d.length)
      (by rw [sumLen_append]; simp only [sumLen]; omega)
      (by simp only [sumLen] at hsum ⊢; omega)]
    simp [sumLen, List.append_assoc, Nat.add_assoc]

theorem mergeSplits_small {cs ov : Nat} {splits : List (List Char)}
    (h : sumLen splits ≤ cs) :
    mergeSplits cs ov splits = optToList (joinStrip splits) := by
  unfold mergeSplits
  rw [mergeRun_small splits [] [] 0 (by simp [sumLen]) (by omega)]
  simp

/-! ## Lemmas about `_split_text` -/

theorem processRun_ok {cs ov : Nat} {recurse : Option (List Char → List (List Char))} :
    ∀ (splits acc good : List (List Char)),
      (∀ s ∈ splits, cs ≤ s.length →
        ∀ c ∈ (match recurse with | none => [s] | some f => f s), ChunkOK cs c) →
      (∀ c ∈ acc, ChunkOK cs c) → (∀ s ∈ good, s.length < cs) →
      (∀ c ∈ (processRun cs ov recurse splits (acc, good)).1, ChunkOK cs c) ∧
      (∀ s ∈ (processRun cs ov recurse splits (acc, good)).2, s.length < cs) := by
  intro splits
  induction splits with
  | nil => intro acc good _ hacc hgood; exact ⟨hacc, hgood⟩
  | cons s rest ih =>
    intro acc good hrec hacc hgood
    by_cases hlen : s.length < cs
    · simp only [processRun, if_pos hlen]
      refine ih _ _ (fun t ht => hrec t (List.mem_cons_of_mem s ht)) hacc ?_
      intro t ht
      rcases List.mem_append.mp ht with h | h
      · exact hgood t h
      · have hts : t = s := by simpa using h
        rw [hts]; exact hlen
    · simp only [processRun, if_neg hlen]
      refine ih _ _ (fun t ht => hrec t (List.mem_cons_of_mem s ht)) ?_ ?_
      · intro c hc
        rcases List.mem_append.mp hc with h | h
        · by_cases hg : good = []
          · rw [if_pos hg] at h; exact hacc c h
          · rw [if_neg hg] at h
            rcases List.mem_append.mp h with h | h
            · exact hacc c h
            · exact mergeSplits_ok (fun t ht => le_of_lt (hgood t ht)) c h
        · exact hrec s (List.mem_cons_self s rest) (by omega) c h
      · intro t ht; cases ht

theorem processSplits_ok {cs ov : Nat} {recurse : Option (List Char → List (List Char))}
    {splits : List (List Char)}
    (hrec : ∀ s ∈ splits, cs ≤ s.length →
      ∀ c ∈ (match recurse with | none => [s] | some f => f s), ChunkOK cs c) :
    ∀ c ∈ processSplits cs ov recurse splits, ChunkOK cs c := by
  obtain ⟨hacc, hgood⟩ := @processRun_ok cs ov recurse splits [] [] hrec
    (by intro c hc; cases hc) (by intro s hs; cases hs)
  intro c hc
  have hc' : c ∈ (if (processRun cs ov recurse splits ([], [])).2 = []
      then (processRun cs ov recurse splits ([], [])).1
      else (processRun cs ov recurse splits ([], [])).1 ++
        mergeSplits cs ov (processRun cs ov recurse splits ([], [])).2) := hc
  by_cases hg : (processRun cs ov recurse splits ([], [])).2 = []
  · rw [if_pos hg] at hc'
    exact hacc c hc'
  · rw [if_neg hg] at hc'
    rcases List.mem_append.mp hc' with h | h
    · exact hacc c h
    · exact mergeSplits_ok (fun t ht => le_of_lt (hgood t ht)) c h

theorem splitSep3_ok {cs ov : Nat} (hcs : 1 ≤ cs) (text : List Char) :
    ∀ c ∈ splitSep3 cs ov text, ChunkOK cs c := by
  apply processSplits_ok
  intro s hs _ c hc
  have hsing : ∃ ch, s = [ch] := by
    have hmem := (List.mem_filter.mp hs).1
    obtain ⟨ch, _, h⟩ := List.mem_map.mp hmem
    exact ⟨ch, h.symm⟩
  obtain ⟨ch, rfl⟩ := hsing
  have hcs' : c = [ch] := by simpa using hc
  rw [hcs']
  exact ⟨by simp, by simpa using hcs⟩

theorem splitSep2_ok {cs ov : Nat} (hcs : 1 ≤ cs) (text : List Char) :
    ∀ c ∈ splitSep2 cs ov text, ChunkOK cs c := by
  unfold splitSep2
  by_cases hocc : occursIn [' '] text
  · rw [if_pos hocc]
    apply processSplits_ok
    intro s _ _ c hc
    exact splitSep3_ok hcs s c hc
  · rw [if_neg hocc]
    exact splitSep3_ok hcs text

theorem splitSep1_ok {cs ov : Nat} (hcs : 1 ≤ cs) (text : List Char) :
    ∀ c ∈ splitSep1 cs ov text, ChunkOK cs c := by
  unfold splitSep1
  by_cases hocc : occursIn ['\n'] text
  · rw [if_pos hocc]
    apply processSplits_ok
    intro s _ _ c hc
    exact splitSep2_ok hcs s c hc
  · rw [if_neg hocc]
    exact splitSep2_ok hcs text

theorem splitSep0_ok {cs ov : Nat} (hcs : 1 ≤ cs) (text : List Char) :
    ∀ c ∈ splitSep0 cs ov text, ChunkOK cs c := by
  unfold splitSep0
  by_cases hocc : occursIn ['\n', '\n'] text
  · rw [if_pos hocc]
    apply processSplits_ok
    intro s _ _ c hc
    exact splitSep1_ok hcs s c hc
  · rw [if_neg hocc]
    exact splitSep1_ok hcs text

theorem processRun_all_good {cs ov : Nat} {recurse : Option (List Char → List (List Char))} :
    ∀ (splits acc good : List (List Char)),
      (∀ s ∈ splits, s.length < cs) →
      processRun cs ov recurse splits (acc, good) = (acc, good ++ splits) := by
  intro splits
  induction splits with
  | nil => intro acc good _; simp [processRun]
  | cons s rest ih =>
    intro acc good hall
    have hs : s.length < cs := hall s (List.mem_cons_self s rest)
    simp only [processRun, if_pos hs]
    rw [ih acc (good ++ [s]) (fun t ht => hall t (List.mem_cons_of_mem s ht))]
    simp

theorem processSplits_small {cs ov : Nat} {recurse : Option (List Char → List (List Char))}
    {splits : List (List Char)}
    (hall : ∀ s ∈ splits, s.length < cs) (hsum : sumLen splits ≤ cs) :
    processSplits cs ov recurse splits = optToList (joinStrip splits) := by
  have h1 : processSplits cs ov recurse splits =
      (if splits = [] then ([] : List (List Char))
       else [] ++ mergeSplits cs ov splits) := by
    unfold processSplits
    rw [processRun_all_good splits [] [] hall]
    rfl
  rw [h1]
  by_cases hnil : splits = []
  · rw [if_pos hnil, hnil]
    rfl
  · rw [if_neg hnil, mergeSplits_small hsum]
    simp

/-- What the whole splitter returns on a text that fits in one chunk: the
stripped text, or nothing when stripping empties it. -/
def stripOne (text : List Char) : List (List Char) :=
  if pstrip text = [] then [] else [pstrip text]

theorem splits_small_all {cs : Nat} {splits : List (List Char)} {text : List Char}
    (hcat : catl splits = text) (hlt : text.length < cs) :
    (∀ s ∈ splits, s.length < cs) ∧ sumLen splits ≤ cs := by
  have hsum : sumLen splits = text.length := by rw [sumLen_eq_length_catl, hcat]
  constructor
  · intro s hs
    have := length_le_sumLen_of_mem hs
    omega
  · omega

theorem optToList_joinStrip_eq {splits : List (List Char)} {text : List Char}
    (h : catl splits = text) :
    optToList (joinStrip splits) = stripOne text := by
  unfold joinStrip stripOne
  rw [h]
  by_cases hz : pstrip text = [] <;> simp [hz, optToList]

theorem splitSep3_small {cs ov : Nat} {text : List Char} (hlt : text.length < cs) :
    splitSep3 cs ov text = stripOne text := by
  have hcat : catl ((text.map (fun c => [c])).filter (fun s => s ≠ [])) = text := by
    rw [catl_filter_ne_nil, catl_map_singleton]
  obtain ⟨hall, hsum⟩ := splits_small_all hcat hlt
  unfold splitSep3
  rw [processSplits_small hall hsum, optToList_joinStrip_eq hcat]

theorem splitSep2_small {cs ov : Nat} {text : List Char} (hlt : text.length < cs) :
    splitSep2 cs ov text = stripOne text := by
  unfold splitSep2
  by_cases hocc : occursIn [' '] text
  · rw [if_pos hocc]
    have hcat : catl ((splitKeepSep [' '] text).filter (fun s => s ≠ [])) = text := by
      rw [catl_filter_ne_nil, catl_splitKeepSep]
    obtain ⟨hall, hsum⟩ := splits_small_all hcat hlt
    rw [processSplits_small hall hsum, optToList_joinStrip_eq hcat]
  · rw [if_neg hocc]
    exact splitSep3_small hlt

theorem splitSep1_small {cs ov : Nat} {text : List Char} (hlt : text.length < cs) :
    splitSep1 cs ov text = stripOne text := by
  unfold splitSep1
  by_cases hocc : occursIn ['\n'] text
  · rw [if_pos hocc]
    have hcat : catl ((splitKeepSep ['\n'] text).filter (fun s => s ≠ [])) = text := by
      rw [catl_filter_ne_nil, catl_splitKeepSep]
    obtain ⟨hall, hsum⟩ := splits_small_all hcat hlt
    rw [processSplits_small hall hsum, optToList_joinStrip_eq hcat]
  · rw [if_neg hocc]
    exact splitSep2_small hlt

theorem splitSep0_small {cs ov : Nat} {text : List Char} (hlt : text.length < cs) :
    splitSep0 cs ov text = stripOne text := by
  unfold splitSep0
  by_cases hocc : occursIn ['\n', '\n'] text
  · rw [if_pos hocc]
    have hcat : catl ((splitKeepSep ['\n', '\n'] text).filter (fun s => s ≠ [])) = text := by
      rw [catl_filter_ne_nil, catl_splitKeepSep]
    obtain ⟨hall, hsum⟩ := splits_small_all hcat hlt
    rw [processSplits_small hall hsum, optToList_joinStrip_eq hcat]
  · rw [if_neg hocc]
    exact splitSep1_small hlt

theorem chunk_text_ok {cl : Int} {ml : Nat} (text : List Char)
    (h40 : 40 ≤ effChunkLen cl ml) :
    chunk_text cl ml text = .ok (splitSep0 (effChunkLen cl ml) 40 text) := by
  unfold chunk_text
  rw [if_neg (by omega)]

/-! ## Lemmas about the build loop -/

theorem buildVectors_ok {nl2 : List Int → List Int} {em : List Char → List Int} :
    ∀ (texts : List (List Char)) (idx0 : IndexFlatIP) (docs0 : List (List Char))
      {idx : IndexFlatIP} {docs : List (List Char)},
      buildVectors nl2 em texts (idx0, docs0) = .ok (idx, docs) →
      idx.d = idx0.d ∧
      idx.vectors = idx0.vectors ++ texts.map (fun t => embed nl2 em t) ∧
      docs = docs0 ++ texts ∧
      (∀ t ∈ texts, (embed nl2 em t).length = idx0.d) := by
  intro texts
  induction texts with
  | nil =>
    intro idx0 docs0 idx docs h
    simp only [buildVectors, Except.ok.injEq, Prod.mk.injEq] at h
    obtain ⟨h1, h2⟩ := h
    subst h1; subst h2
    refine ⟨rfl, by simp, by simp, by intro t ht; cases ht⟩
  | cons t rest ih =>
    intro idx0 docs0 idx docs h
    simp only [buildVectors, IndexFlatIP.add] at h
    by_cases hlen : (embed nl2 em t).length = idx0.d
    · rw [if_pos hlen] at h
      have h' : buildVectors nl2 em rest
          (⟨idx0.d, idx0.vectors ++ [embed nl2 em t]⟩, docs0 ++ [t]) =
          .ok (idx, docs) := h
      obtain ⟨hd, hv, hdocs, hall⟩ := ih _ _ h'
      refine ⟨hd, ?_, ?_, ?_⟩
      · rw [hv]; simp
      · rw [hdocs]; simp
      · intro u hu
        rcases List.mem_cons.mp hu with rfl | hu
        · exact hlen
        · exact hall u hu
    · rw [if_neg hlen] at h
      exact Except.noConfusion h

theorem buildVectors_error {nl2 : List Int → List Int} {em : List Char → List Int} :
    ∀ (texts : List (List Char)) (idx0 : IndexFlatIP) (docs0 : List (List Char)),
      (∃ t ∈ texts, (embed nl2 em t).length ≠ idx0.d) →
      ∃ e, buildVectors nl2 em texts (idx0, docs0) = .error e := by
  intro texts
  induction texts with
  | nil =>
    intro idx0 docs0 h
    obtain ⟨t, ht, _⟩ := h
    cases ht
  | cons t rest ih =>
    intro idx0 docs0 h
    by_cases hlen : (embed nl2 em t).length = idx0.d
    · obtain ⟨u, hu, hne⟩ := h
      have hu' : u ∈ rest := by
        rcases List.mem_cons.mp hu with rfl | hu'
        · exact absurd hlen hne
        · exact hu'
      obtain ⟨e, he⟩ := ih ⟨idx0.d, idx0.vectors ++ [embed nl2 em t]⟩ (docs0 ++ [t])
        ⟨u, hu', hne⟩
      refine ⟨e, ?_⟩
      simp only [buildVectors, IndexFlatIP.add, if_pos hlen]
      exact he
    · refine ⟨"AssertionError: d == self.d", ?_⟩
      simp only [buildVectors, IndexFlatIP.add, if_neg hlen]
      rfl

/-! ## Lemmas about ingestion -/

/-- Reference form of the chunks of a list of file texts when the chunker
configuration is valid. -/
def chunksOfFiles (cl : Int) (ml : Nat) : List (List Char) → List (List Char)
  | [] => []
  | t :: rest => splitSep0 (effChunkLen cl ml) 40 t ++ chunksOfFiles cl ml rest

/-- Reference form of the chunks of the configured directories: for each
directory all of its `.txt` chunks first, then all of its `.pdf` chunks. -/
def chunksOfDirs (cl : Int) (ml : Nat) : List LocalDir → List (List Char)
  | [] => []
  | d :: rest =>
    (chunksOfFiles cl ml d.txtFiles ++ chunksOfFiles cl ml d.pdfFiles) ++
      chunksOfDirs cl ml rest

theorem fileChunks_ok {cl : Int} {ml : Nat} (h40 : 40 ≤ effChunkLen cl ml) :
    ∀ ts : List (List Char), fileChunks cl ml ts = .ok (chunksOfFiles cl ml ts) := by
  intro ts
  induction ts with
  | nil => rfl
  | cons t rest ih =>
    simp only [fileChunks, chunk_text_ok t h40, ih, chunksOfFiles]
    rfl

theorem dirChunks_ok {cl : Int} {ml : Nat} (h40 : 40 ≤ effChunkLen cl ml)
    (d : LocalDir) :
    dirChunks cl ml d =
      .ok (chunksOfFiles cl ml d.txtFiles ++ chunksOfFiles cl ml d.pdfFiles) := by
  simp only [dirChunks, fileChunks_ok h40]
  rfl

theorem dirsChunks_ok {cl : Int} {ml : Nat} (h40 : 40 ≤ effChunkLen cl ml) :
    ∀ dirs : List LocalDir, dirsChunks cl ml dirs = .ok (chunksOfDirs cl ml dirs) := by
  intro dirs
  induction dirs with
  | nil => rfl
  | cons d rest ih =>
    simp only [dirsChunks, dirChunks_ok h40, ih, chunksOfDirs]
    rfl

theorem load_data_ok {cl : Int} {ml : Nat} (h40 : 40 ≤ effChunkLen cl ml)
    (fetched : List (Except String (List Char))) (dirs : List LocalDir) :
    load_data_for_indexing cl ml fetched dirs =
      .ok (urlChunks cl ml fetched ++ chunksOfDirs cl ml dirs) := by
  simp only [load_data_for_indexing, dirsChunks_ok h40]
  rfl

theorem urlChunks_append (cl : Int) (ml : Nat)
    (rs₁ rs₂ : List (Except String (List Char))) :
    urlChunks cl ml (rs₁ ++ rs₂) = urlChunks cl ml rs₁ ++ urlChunks cl ml rs₂ := by
  induction rs₁ with
  | nil => rfl
  | cons r rest ih =>
    simp only [List.cons_append, urlChunks]
    rw [show rest.append rs₂ = rest ++ rs₂ from rfl, ih, List.append_assoc]

theorem urlChunks_error (cl : Int) (ml : Nat) (e : String)
    (rs : List (Except String (List Char))) :
    urlChunks cl ml (.error e :: rs) = urlChunks cl ml rs := rfl

/-! ## Lemmas about search -/

theorem search_empty (d : Nat) (q : List Int) (k : Nat) :
    IndexFlatIP.search ⟨d, []⟩ q k =
      (List.replicate k padScore, List.replicate k (-1)) := by
  simp [IndexFlatIP.search, sortScored]

theorem pythonGet_nil_neg_one : pythonGet [] (-1) = .error "IndexError" := by
  simp [pythonGet]

theorem except_bind_ok {α β : Type} (a : α) (f : α → Except String β) :
    (Except.ok a >>= f) = f a := rfl

theorem except_bind_error {α β : Type} (e : String) (f : α → Except String β) :
    ((Except.error e : Except String α) >>= f) = Except.error e := rfl

/-! ## Claims -/

/-- C1: the spec says the gate recomputes each configured directory's
content hash and skips the rebuild iff every current hash occurs in the
marker; in particular an unchanged directory set skips.  The code instead
tests whether the directory PATH string occurs in the marker (which holds
only hex hashes), and only for the first directory.  Concretely: with the
single unchanged directory `"data"` and the marker being exactly what the
previous successful build wrote for it (its dirhash, here 64 hex
characters), the gate still decides to rebuild; conversely, with a
directory named `"a"` the gate skips purely because the letter `a` occurs
in some hash, regardless of any modification. -/
theorem C1_gate_tests_paths_not_hashes :
    stalenessGate ["data".toList] true
      (some (writeMarker (fun _ => List.replicate 64 'a') ["data".toList])) =
      .rebuild ∧
    stalenessGate ["a".toList] true (some (List.replicate 64 'a')) = .skip := by
  constructor <;> rfl

/-- C8: the spec says that when the save directory exists without a hash
marker, the build warns and performs a full rebuild that persists the index
artifacts and rewrites the marker.  The gate does decide to rebuild, but
`savedir.mkdir(parents=True)` is called without `exist_ok` on the still
existing directory, so the rebuild dies with `FileExistsError` after
embedding everything and before persisting anything: here a full concrete
run over one directory containing one small text file. -/
theorem C8_rebuild_crashes_on_existing_savedir :
    build_index id (fun _ => [1]) (fun _ => List.replicate 64 'a') 100 512 []
      [⟨"data".toList, ["hello".toList], []⟩] ⟨true, none⟩ =
      .error "FileExistsError" := rfl

/-- C9: a failed URL fetch (network error or non-2xx status surfaced by
`raise_for_status`, or any processing error) is logged and skipped and the
remaining sources still contribute their chunks: ingestion over a source
list containing a failed fetch equals ingestion over the same list with the
failure removed, for every configuration, every surrounding fetch outcome
and every set of local directories. -/
theorem C9_bad_url_skipped (cl : Int) (ml : Nat) (e : String)
    (rs₁ rs₂ : List (Except String (List Char))) (dirs : List LocalDir) :
    load_data_for_indexing cl ml (rs₁ ++ .error e :: rs₂) dirs =
      load_data_for_indexing cl ml (rs₁ ++ rs₂) dirs := by
  unfold load_data_for_indexing
  cases hd : dirsChunks cl ml dirs with
  | error e' => rfl
  | ok ds =>
    rw [except_bind_ok, except_bind_ok, urlChunks_append, urlChunks_error,
      ← urlChunks_append]

/-- C10: within each configured directory, ingestion yields every chunk of
the directory's `.txt` files (in `rglob` order) before any chunk of its
`.pdf` files: whenever the chunker configuration is valid, the whole
ingestion equals URL chunks followed by, per directory, the `.txt` chunks
and then the `.pdf` chunks. -/
theorem C10_txt_chunks_before_pdf_chunks (cl : Int) (ml : Nat)
    (fetched : List (Except String (List Char))) (dirs : List LocalDir)
    (h40 : 40 ≤ effChunkLen cl ml) :
    load_data_for_indexing cl ml fetched dirs =
      .ok (urlChunks cl ml fetched ++ chunksOfDirs cl ml dirs) :=
  load_data_ok h40 fetched dirs

/-- Witness for C10 at a concrete configuration: one directory with one
text file and one PDF. -/
theorem C10_txt_chunks_before_pdf_chunks_witness :
    load_data_for_indexing 100 512 []
      [⟨"d".toList, ["t".toList], ["p".toList]⟩] =
      .ok (urlChunks 100 512 [] ++
        chunksOfDirs 100 512 [⟨"d".toList, ["t".toList], ["p".toList]⟩]) :=
  C10_txt_chunks_before_pdf_chunks 100 512 []
    [⟨"d".toList, ["t".toList], ["p".toList]⟩] (by decide)

/-- C3: the spec says a query with `k` greater than the entry count `N > 0`
returns at most `N` results, each a distinct stored entry, with no
out-of-range placeholder treated as a result.  The code resolves faiss's
`-1` padding labels through Python negative indexing, so `docs[-1]` is the
LAST document: with one stored entry and `k = 3`, the turn's
`search_results` holds three entries, the single document repeated three
times — more than `N = 1` and not distinct. -/
theorem C3_overrequest_duplicates_last_doc :
    ∃ t, run_query id 3 ⟨1, [[2]]⟩ ["A".toList]
        ⟨"q".toList, .ok [3], fun _ => .ok [], fun _ => .ok []⟩ = .ok t ∧
      t.searchResults = ["A".toList, "A".toList, "A".toList] ∧
      t.searchResults.length = 3 ∧
      (["A".toList] : List (List Char)).length = 1 :=
  ⟨_, rfl, rfl, rfl, rfl⟩

/-- C5 counterexample: the claim locates the dimension check in the embed
operation, but `embed` (lines 77-82) only normalizes — it never fails.
With a service that returns a 1-dimensional vector for the probe (so the
established dimension is 1) and a 2-dimensional vector for everything else,
`embed` on `"x"` returns the mismatched vector `[1, 2]` instead of raising
any error. -/
theorem C5_embed_never_fails_on_dimension_drift :
    dimEstablished (fun t => if t = probeText then [1] else [1, 2]) = 1 ∧
    embed id (fun t => if t = probeText then [1] else [1, 2]) "x".toList =
      [1, 2] := by
  constructor
  · rfl
  · decide

/-- C5 amended: the mismatched vector is nevertheless never silently added
— the failure is raised by `index.add` (faiss's dimension assertion), not
by `embed`: (1) every vector in a successfully built index has the
dimension established by the probe; (2) if any ingested text embeds to a
vector of a different dimension, the build loop fails with an error. -/
theorem C5_dimension_mismatch_fails_at_add (nl2 : List Int → List Int)
    (em : List Char → List Int) (texts : List (List Char))
    (idx : IndexFlatIP) (docs : List (List Char)) :
    (buildVectors nl2 em texts (IndexFlatIP.empty (dimEstablished em), []) =
        .ok (idx, docs) →
      ∀ v ∈ idx.vectors, v.length = dimEstablished em) ∧
    ((∃ t ∈ texts, (embed nl2 em t).length ≠ dimEstablished em) →
      ∃ e, buildVectors nl2 em texts
        (IndexFlatIP.empty (dimEstablished em), []) = .error e) := by
  constructor
  · intro h v hv
    obtain ⟨_, hv', _, hall⟩ := buildVectors_ok texts _ [] h
    rw [hv'] at hv
    simp only [IndexFlatIP.empty, List.nil_append, List.mem_map] at hv
    obtain ⟨t, ht, rfl⟩ := hv
    exact hall t ht
  · intro hex
    exact buildVectors_error texts _ [] hex

/-- Witness for C5's amended theorem: with the probe establishing dimension
1 and the single ingested text embedding to `[1, 2]`, the build loop
errors. -/
theorem C5_dimension_mismatch_fails_at_add_witness :
    ∃ e, buildVectors id (fun t => if t = probeText then [1] else [1, 2])
      ["x".toList]
      (IndexFlatIP.empty
        (dimEstablished (fun t => if t = probeText then [1] else [1, 2])), []) =
      .error e :=
  (C5_dimension_mismatch_fails_at_add id
      (fun t => if t = probeText then [1] else [1, 2]) ["x".toList]
      (IndexFlatIP.empty 1) []).2
    ⟨"x".toList, by simp, by decide⟩

/-- C6 counterexample: the spec says a service failure during a query turn
aborts only that turn and the loop continues on the next input.  The `rag`
loop has no handler around `run_query`, so the first turn's embedding
failure ends the whole session: with two queued inputs whose second turn
would succeed (shown by the second conjunct), the loop produces no
completed turns and stops with the first turn's error. -/
theorem C6_turn_error_kills_session :
    rag id 3 ⟨1, []⟩ []
      [⟨"q1".toList, .error "embedding service unreachable",
          fun _ => .ok [], fun _ => .ok ['a']⟩,
        ⟨"q2".toList, .ok [1], fun _ => .ok [], fun _ => .ok ['a']⟩] =
      ([], some "embedding service unreachable") ∧
    (∃ t, run_query id 3 ⟨1, []⟩ []
        ⟨"q2".toList, .ok [1], fun _ => .ok [], fun _ => .ok ['a']⟩ = .ok t) := by
  constructor
  · rfl
  · exact ⟨_, rfl⟩

/-- C6 amended: an error raised during a query turn (embedding, tokenize or
completion failure) propagates out of the unguarded `while True` loop and
terminates the session with that error; no later queued input is processed,
and only end-of-input ends the session cleanly. -/
theorem C6_turn_error_terminates_session (nl2 : List Int → List Int) (k : Nat)
    (idx : IndexFlatIP) (docs : List (List Char)) (i : TurnInput)
    (rest : List TurnInput) (e : String)
    (h : run_query nl2 k idx docs i = .error e) :
    rag nl2 k idx docs (i :: rest) = ([], some e) := by
  unfold rag
  rw [h]

/-- Witness for C6's amended theorem: a concrete session whose first turn's
embedding call fails. -/
theorem C6_turn_error_terminates_session_witness :
    rag id 3 ⟨1, []⟩ []
      [⟨"q".toList, .error "embed down", fun _ => .ok [], fun _ => .ok []⟩] =
      ([], some "embed down") :=
  C6_turn_error_terminates_session id 3 ⟨1, []⟩ []
    ⟨"q".toList, .error "embed down", fun _ => .ok [], fun _ => .ok []⟩ []
    "embed down" rfl

/-- C7 counterexample, refuting two conjuncts of the claim at concrete
inputs (effective limit `L = 60`): the empty text is shorter than `L` yet
yields zero chunks, not exactly one; and a 102-character text made of two
50-character paragraphs splits into two chunks sharing no characters at
all, so consecutive chunks do not overlap by 40 characters (the last 40
characters of the first chunk differ from the first 40 of the second). -/
theorem C7_chunker_claim_fails_on_code :
    chunk_text 60 512 [] = .ok [] ∧
    chunk_text 60 512
        (List.replicate 50 'p' ++ '\n' :: '\n' :: List.replicate 50 'q') =
      .ok [List.replicate 50 'p', List.replicate 50 'q'] ∧
    (List.replicate 50 'p' : List Char).drop 10 ≠
      (List.replicate 50 'q' : List Char).take 40 := by
  refine ⟨rfl, rfl, by decide⟩

/-- C7 amended: with the effective limit `L` at least the fixed overlap 40
(otherwise the splitter's constructor raises `ValueError`), `chunk_text`
succeeds and yields only nonempty chunks of length at most `L`; a text
shorter than `L` yields exactly one chunk — the whitespace-stripped text —
when its stripped form is nonempty, and zero chunks when it strips to
nothing (in particular the empty text).  The original exact-40-character
overlap conjunct is false: the counterexample exhibits adjacent chunks
sharing no characters at all. -/
theorem C7_chunk_text_amended (cl : Int) (ml : Nat) (text : List Char)
    (h40 : 40 ≤ effChunkLen cl ml) :
    ∃ chunks, chunk_text cl ml text = .ok chunks ∧
      (∀ c ∈ chunks, c ≠ [] ∧ c.length ≤ effChunkLen cl ml) ∧
      (text.length < effChunkLen cl ml → pstrip text ≠ [] →
        chunks = [pstrip text]) ∧
      (text.length < effChunkLen cl ml → pstrip text = [] →
        chunks = []) := by
  refine ⟨_, chunk_text_ok text h40, ?_, ?_, ?_⟩
  · intro c hc
    exact splitSep0_ok (by omega) text c hc
  · intro hlt hne
    rw [splitSep0_small hlt]
    unfold stripOne
    rw [if_neg hne]
  · intro hlt hz
    rw [splitSep0_small hlt]
    unfold stripOne
    rw [if_pos hz]

/-- Witness for C7's amended theorem at a concrete configuration and
text. -/
theorem C7_chunk_text_amended_witness :
    ∃ chunks, chunk_text 60 512 "hi".toList = .ok chunks ∧
      (∀ c ∈ chunks, c ≠ [] ∧ c.length ≤ effChunkLen 60 512) ∧
      ("hi".toList.length < effChunkLen 60 512 → pstrip "hi".toList ≠ [] →
        chunks = [pstrip "hi".toList]) ∧
      ("hi".toList.length < effChunkLen 60 512 → pstrip "hi".toList = [] →
        chunks = []) :=
  C7_chunk_text_amended 60 512 "hi".toList (by decide)

/-- C2: after every successful `build_index` run that actually built
(rather than skipped), the number of vectors stored in the index equals the
length of the document list serialized next to it, and the vector list is
exactly the map of `embed` over the document list — so the vector at every
position `i` was produced by embedding the document text at position `i`. -/
theorem C2_index_doc_alignment {nl2 : List Int → List Int}
    {em : List Char → List Int} {hf : List Char → List Char} {cl : Int}
    {ml : Nat} {fetched : List (Except String (List Char))}
    {dirs : List LocalDir} {fs : FsState} {idx : IndexFlatIP}
    {docs : List (List Char)} {marker : List Char}
    (h : build_index nl2 em hf cl ml fetched dirs fs =
      .ok (.built idx docs marker)) :
    idx.ntotal = docs.length ∧
    idx.vectors = docs.map (fun t => embed nl2 em t) := by
  unfold build_index at h
  cases hg : stalenessGate (dirs.map (fun d => d.path)) fs.savedirExists
      fs.marker with
  | skip =>
    simp only [hg] at h
    exact BuildOutcome.noConfusion (Except.ok.inj h)
  | rebuild =>
    simp only [hg] at h
    cases hl : load_data_for_indexing cl ml fetched dirs with
    | error err =>
      rw [hl, except_bind_error] at h
      exact Except.noConfusion h
    | ok texts =>
      rw [hl, except_bind_ok] at h
      cases hb : buildVectors nl2 em texts
          (IndexFlatIP.empty (dimEstablished em), []) with
      | error err =>
        rw [hb, except_bind_error] at h
        exact Except.noConfusion h
      | ok pr =>
        obtain ⟨idx', docs'⟩ := pr
        rw [hb, except_bind_ok] at h
        by_cases hfs : fs.savedirExists
        · rw [if_pos hfs] at h
          exact Except.noConfusion h
        · rw [if_neg hfs] at h
          have hinj := Except.ok.inj h
          injection hinj with h1 h2 h3
          subst h1
          subst h2
          obtain ⟨_, hv, hdocs, _⟩ := buildVectors_ok texts _ [] hb
          constructor
          · unfold IndexFlatIP.ntotal
            rw [hv, hdocs]
            simp [IndexFlatIP.empty]
          · rw [hv, hdocs]
            simp [IndexFlatIP.empty]

/-- Witness for C2: a concrete successful build over one directory with one
small text file, whose index holds one vector for the one document. -/
theorem C2_index_doc_alignment_witness :
    (⟨1, [[1]]⟩ : IndexFlatIP).ntotal = ["hello".toList].length ∧
    (⟨1, [[1]]⟩ : IndexFlatIP).vectors =
      ["hello".toList].map (fun t => embed id (fun _ => [1]) t) :=
  @C2_index_doc_alignment id (fun _ => [1]) (fun _ => List.replicate 64 'a')
    100 512 [] [⟨"data".toList, ["hello".toList], []⟩] ⟨false, none⟩
    ⟨1, [[1]]⟩ ["hello".toList] (List.replicate 64 'a') rfl

theorem pprint_empty_noResults (j : Nat) :
    pprint_search_results (List.replicate (j + 1) padScore)
      (List.replicate (j + 1) (-1)) [] = .noResults := by
  unfold pprint_search_results
  rw [List.replicate_succ, List.replicate_succ, List.zip_cons_cons]
  simp only [pprintRows, pythonGet_nil_neg_one, except_bind_error]

theorem listCompGet_empty_err (j : Nat) :
    listCompGet [] (List.replicate (j + 1) (-1)) = .error "IndexError" := by
  rw [List.replicate_succ]
  simp only [listCompGet, pythonGet_nil_neg_one, except_bind_error]

/-- C4: a query turn against an index with zero stored entries never raises
from indexing into the empty document list: the `-1`-padded labels make the
renderer's first `docs[-1]` lookup raise `IndexError`, which is caught and
rendered as the distinguishable "No results found." outcome; the
`search_results` list used for the prompt is the empty list (its
comprehension's `IndexError` is caught too), and the assembled prompt has
an empty context block between the fixed template parts.  Holds for every
requested `k > 0`, every embedding and every outcome of the tokenize and
completion calls that lets the turn finish. -/
theorem C4_empty_index_query (nl2 : List Int → List Int) (d k : Nat)
    (i : TurnInput) (qe : List Int) (ts : List Nat) (ans : List Char)
    (hk : 0 < k) (hemb : i.emQ = .ok qe)
    (htok : i.tok (promptTemplate [] i.query) = .ok ts)
    (hcomp : i.comp (promptTemplate [] i.query) = .ok ans) :
    run_query nl2 k ⟨d, []⟩ [] i =
      .ok ⟨.noResults, [], promptTemplate [] i.query, ts.length, ans⟩ := by
  obtain ⟨j, rfl⟩ : ∃ j, k = j + 1 := ⟨k - 1, by omega⟩
  unfold run_query
  rw [hemb, except_bind_ok]
  dsimp only
  rw [search_empty]
  dsimp only
  rw [pprint_empty_noResults j, listCompGet_empty_err j]
  dsimp only [joinNL]
  rw [htok, except_bind_ok, hcomp, except_bind_ok]

/-- Witness for C4: a concrete query turn against an empty index with
`k = 3`. -/
theorem C4_empty_index_query_witness :
    0 < 3 ∧
    run_query id 3 ⟨1, []⟩ []
      ⟨"q".toList, .ok [1], fun _ => .ok [], fun _ => .ok ['a']⟩ =
      .ok ⟨.noResults, [], promptTemplate [] "q".toList, 0, ['a']⟩ :=
  ⟨by decide, @C4_empty_index_query id 1 3
    ⟨"q".toList, .ok [1], fun _ => .ok [], fun _ => .ok ['a']⟩ [1] [] ['a']
    (by decide) rfl rfl rfl⟩

end RagApp
